import Mathlib

/-!
Verification of the `outer` workflow driver (src/outer/__init__.py).

The Python module is shallowly embedded below: strings are `List Char`
(Python `str` is a sequence of characters), paths are lists of path
components, the streamed SDK exchange is a list of inbound messages, and
the driver's mutable fields (`running`, `total_cost`, `total_turns`) are
explicit state records.
-/

namespace Outer

/-! ## Character primitives (Python `str.lower`, regex char class `[a-z0-9]`) -/

/-- Whether `c` is in the regex character class `[a-z0-9]` used by `slugify`. -/
def isSlugChar (c : Char) : Bool :=
  (97 ≤ c.toNat && c.toNat ≤ 122) || (48 ≤ c.toNat && c.toNat ≤ 57)

/-- Whether `c` is an ASCII uppercase letter `[A-Z]`. -/
def isUpperAscii (c : Char) : Bool :=
  65 ≤ c.toNat && c.toNat ≤ 90

/-- Whether `c` is an ASCII character. -/
def isAscii (c : Char) : Bool :=
  c.toNat ≤ 127

/-- The ASCII case of Python `str.lower`: an ASCII uppercase letter maps to
its lowercase counterpart, every other ASCII character to itself. -/
def lowerChar (c : Char) : Char :=
  if isUpperAscii c then Char.ofNat (c.toNat + 32) else c

/-- One character of CPython `str.lower`, which maps a character to a
string.  Exact on the ASCII range; of the non-ASCII mappings, the table
carries the ones this development's statements reach — U+212A KELVIN SIGN
lowercases to `k` and U+0130 LATIN CAPITAL LETTER I WITH DOT ABOVE to
`i` followed by U+0307 COMBINING DOT ABOVE — and maps the remaining
non-ASCII characters to themselves.  That remainder is a disclosed modeling
boundary: it is exact for characters that lowercase to themselves (such as
U+00E9) but not for every non-ASCII character, so no theorem below
quantifies over strings outside the ASCII range plus this table. -/
def pyLowerChar (c : Char) : List Char :=
  if isUpperAscii c then [Char.ofNat (c.toNat + 32)]
  else if c = 'K' then ['k']
  else if c = 'İ' then ['i', '̇']
  else [c]

/-- ASCII alphanumeric: the characters `slugify` keeps (after lowercasing). -/
def isAsciiAlnum (c : Char) : Bool :=
  isSlugChar c || isUpperAscii c

/-! ## `slugify` (source lines 48-50)

`re.sub(r'[^a-z0-9]+', '_', name.lower()).strip('_')`: each maximal run of
characters outside `[a-z0-9]` is replaced by a single `'_'`, then leading and
trailing underscores are stripped. -/

/-- The `re.sub(r'[^a-z0-9]+', '_', ·)` pass.  The flag records whether the
scanner is inside a run of non-matching characters whose replacement
underscore has already been emitted. -/
def subNonSlug : Bool → List Char → List Char
  | _, [] => []
  | inRun, c :: cs =>
    if isSlugChar c then c :: subNonSlug false cs
    else if inRun then subNonSlug true cs
    else '_' :: subNonSlug true cs

/-- Python `str.strip(c)`: remove leading and trailing occurrences of `c`. -/
def stripChar (c : Char) (l : List Char) : List Char :=
  ((l.dropWhile (fun d => d == c)).reverse.dropWhile (fun d => d == c)).reverse

/-- The `slugify` function from the source: lowercase (`str.lower`, modelled
by `pyLowerChar`), collapse non-`[a-z0-9]` runs to a single underscore,
strip boundary underscores. -/
def slugify (s : List Char) : List Char :=
  stripChar '_' (subNonSlug false (s.flatMap pyLowerChar))

/-- The slug actually used by the architecture phase (source line 534):
`slugify(description)[:30]`. -/
def cappedSlug (s : List Char) : List Char :=
  (slugify s).take 30

/-- Matcher for the rest of `^[a-z0-9]+(_[a-z0-9]+)*$` after an initial
`[a-z0-9]+` group has started: alphanumerics continue the group, an
underscore must be followed by a further alphanumeric. -/
def afterRun : List Char → Bool
  | [] => true
  | [c] => isSlugChar c
  | c :: d :: ds =>
    if isSlugChar c then afterRun (d :: ds)
    else if c == '_' then isSlugChar d && afterRun ds
    else false

/-- Full matcher for the spec's slug regex `^[a-z0-9]+(_[a-z0-9]+)*$`. -/
def matchesSlugRegex : List Char → Bool
  | [] => false
  | c :: cs => isSlugChar c && afterRun cs

/-- Auxiliary wellformedness relation for the slug-regex proof: two adjacent
characters are not both underscores. -/
def notBothUnd (a b : Char) : Prop := ¬(a = '_' ∧ b = '_')

/-! ## Filenames and `pathlib.Path.stem` -/

/-- A filename (one path component), as a character sequence. -/
abbrev FileName := List Char

/-- Python `pathlib.PurePath.stem`: the name with its last dot-suffix removed.  The
suffix only exists when the last `'.'` is neither the first nor the last
character of the name. -/
def pyStem (name : FileName) : FileName :=
  match name.reverse.findIdx? (fun c => c == '.') with
  | none => name
  | some j =>
    if 0 < j && j < name.length - 1 then name.take (name.length - 1 - j) else name

/-! ## Artifact discovery (source lines 53-100) -/

/-- The four planning-artifact slots discovered by `find_planning_files`. -/
structure ArtifactSet where
  architecture : Option FileName
  roadmap : Option FileName
  phase_index : Option FileName
  resume_prompt : Option FileName
deriving DecidableEq

/-- Stem-level suffix conventions, as in the source's suffix lists. -/
def sufArchitecture : List Char := "_ARCHITECTURE".data
def sufRoadmap : List Char := "_ROADMAP".data
def sufResumePrompt : List Char := "_RESUME_PROMPT".data
def sufPhaseIndex : List Char := "_PHASE_INDEX".data

/-- Python `name[:-n]` for `n ≤ len(name)`: drop the last `n` characters. -/
def dropSuffixLen (l : List Char) (n : Nat) : List Char :=
  l.take (l.length - n)

/-- The inner loop of `get_slug_from_files`: try the three suffixes
`_ARCHITECTURE`, `_ROADMAP`, `_RESUME_PROMPT` in order against a stem and
strip the first one that matches. -/
def stripKnownSuffix (st : List Char) : Option (List Char) :=
  if sufArchitecture.isSuffixOf st then some (dropSuffixLen st sufArchitecture.length)
  else if sufRoadmap.isSuffixOf st then some (dropSuffixLen st sufRoadmap.length)
  else if sufResumePrompt.isSuffixOf st then some (dropSuffixLen st sufResumePrompt.length)
  else none

/-- The `phase_index` fallback of `get_slug_from_files`. -/
def stripPhaseIndexSuffix (st : List Char) : Option (List Char) :=
  if sufPhaseIndex.isSuffixOf st then some (dropSuffixLen st sufPhaseIndex.length)
  else none

/-- One slot of the outer loop of `get_slug_from_files`: if the slot holds a
file, take its stem and try the known suffixes; on failure (or an empty
slot) fall through to the next slot. -/
def trySlot (f : Option FileName) : Option (List Char) :=
  f.bind (fun n => stripKnownSuffix (pyStem n))

/-- The `get_slug_from_files` function (source lines 88-100): slots are examined in the
order architecture, roadmap, resume_prompt, then phase_index; the first
stem carrying a known suffix yields the slug. -/
def get_slug_from_files (files : ArtifactSet) : Option (List Char) :=
  match trySlot files.architecture with
  | some s => some s
  | none =>
    match trySlot files.roadmap with
    | some s => some s
    | none =>
      match trySlot files.resume_prompt with
      | some s => some s
      | none => files.phase_index.bind fun n => stripPhaseIndexSuffix (pyStem n)

/-- The directory state `find_planning_files` reads: whether `docs/` and
`docs/phases/` exist, and their file listings in iteration order. -/
structure DirListing where
  docsExists : Bool
  docsFiles : List FileName
  phasesExists : Bool
  phasesFiles : List FileName

/-- Python `for f in dir.glob("*_SUFFIX.md"): take f; break` — the first listed file
whose name ends with the pattern's literal suffix (`*` matches any, possibly
empty, character sequence of one path component). -/
def globFirst (sufMd : List Char) (files : List FileName) : Option FileName :=
  files.find? fun f => sufMd.isSuffixOf f

/-- Full-filename glob patterns used by `find_planning_files`. -/
def globArchitecture : List Char := "_ARCHITECTURE.md".data
def globRoadmap : List Char := "_ROADMAP.md".data
def globPhaseIndex : List Char := "_PHASE_INDEX.md".data
def globResumePrompt : List Char := "_RESUME_PROMPT.md".data

/-- The `find_planning_files` function (source lines 53-85). -/
def find_planning_files (d : DirListing) : ArtifactSet :=
  if d.docsExists then
    { architecture := globFirst globArchitecture d.docsFiles
      roadmap := globFirst globRoadmap d.docsFiles
      phase_index := if d.phasesExists then globFirst globPhaseIndex d.phasesFiles else none
      resume_prompt := globFirst globResumePrompt d.docsFiles }
  else ⟨none, none, none, none⟩

/-! ## Phase gate (source lines 459-522) -/

/-- The five session-starting actions: `action_run_plan`,
`action_run_roadmap`, `action_run_phases`, `action_run_prompt`,
`action_run_execute`. -/
inductive PhaseAction
  | plan
  | roadmap
  | phases
  | prompt
  | execute
deriving DecidableEq

/-- Outcome of the per-action prerequisite check: either the session may
start, or the action refuses and logs the given message (no exception is
raised — every branch of the source returns normally). -/
inductive GateResult
  | start
  | refuse (msg : String)
deriving DecidableEq

/-- The prerequisite checks of the `action_run_*` handlers.  `plan` has no
artifact prerequisite; each later action requires the preceding phase's
artifact and otherwise logs the source's literal message. -/
def gateCheck : PhaseAction → ArtifactSet → GateResult
  | .plan, _ => .start
  | .roadmap, files =>
    if files.architecture.isSome then .start
    else .refuse "[red]No architecture file found. Run Plan first.[/red]\n"
  | .phases, files =>
    if files.roadmap.isSome then .start
    else .refuse "[red]No roadmap file found. Run Roadmap first.[/red]\n"
  | .prompt, files =>
    if files.phase_index.isSome then .start
    else .refuse "[red]No phase files found. Run Phases first.[/red]\n"
  | .execute, files =>
    if files.resume_prompt.isSome then .start
    else .refuse "[red]No resume prompt found. Run Prompt first.[/red]\n"

/-! ## Single-flight driver state (source lines 432-448, 524-617)

The Textual app runs handlers on a single-threaded event loop; a button
press executes the `on_button_pressed` guard and, when it passes, the
started worker's prelude (which sets `self.running = True`) before any
further press is handled, so the guard check and the flag set form one
atomic step of the model.  `active` is ghost instrumentation counting
in-flight sessions. -/

structure Driver where
  running : Bool
  active : Nat
deriving DecidableEq

/-- Outcome of a button press as `on_button_pressed` reports it: a started
session, the busy rejection ("Session already running..."), or a
prerequisite refusal from `gateCheck`. -/
inductive PressOutcome
  | started
  | rejectedBusy
  | refusedPrereq (msg : String)
deriving DecidableEq

/-- The `on_button_pressed` handler followed by the dispatched action: while `running`
is set the press is rejected with the busy message and nothing is recorded;
otherwise the action's gate decides whether a session starts. -/
def pressButton (s : Driver) (p : PhaseAction) (files : ArtifactSet) :
    Driver × PressOutcome :=
  if s.running then (s, .rejectedBusy)
  else
    match gateCheck p files with
    | .refuse msg => (s, .refusedPrereq msg)
    | .start => (⟨true, s.active + 1⟩, .started)

/-- A `run_phase_*` worker finishing: it clears `running` as its last step. -/
def finishSession (s : Driver) : Driver :=
  ⟨false, s.active - 1⟩

/-- Driver states reachable from startup (`running = False`, no session). -/
inductive Reachable : Driver → Prop
  | init : Reachable ⟨false, 0⟩
  | press (s : Driver) (p : PhaseAction) (files : ArtifactSet) :
      Reachable s → Reachable (pressButton s p files).1
  | finish (s : Driver) : Reachable s → s.running = true →
      Reachable (finishSession s)

/-! ## Session runner `_run_claude` (source lines 619-645) -/

/-- Content blocks of an `AssistantMessage`; blocks other than `TextBlock`
and `ToolUseBlock` are ignored by the source. -/
inductive ContentBlock
  | textBlock (text : String)
  | toolUseBlock (name : String)
  | otherBlock
deriving DecidableEq

/-- The fields the source copies out of a `ResultMessage` into
`result_info`.  `total_cost_usd` is optional in the SDK (`None` possible). -/
structure ResultInfo where
  duration_ms : Int
  num_turns : Int
  total_cost_usd : Option Rat
  session_id : String
  is_error : Bool
deriving DecidableEq

/-- Inbound messages of the streamed exchange; message classes other than
`AssistantMessage` and `ResultMessage` are ignored by the source. -/
inductive SdkMessage
  | assistant (content : List ContentBlock)
  | result (r : ResultInfo)
  | other
deriving DecidableEq

/-- One write to the output log: a text block's content forwarded verbatim,
or the tool-use marker (rendered as `[dim]> name[/dim]`), which carries
nothing but the tool's name. -/
inductive OutputItem
  | text (s : String)
  | toolMarker (name : String)
deriving DecidableEq

/-- The per-block body of the inner `for block in message.content` loop. -/
def renderBlock : ContentBlock → List OutputItem
  | .textBlock t => [.text t]
  | .toolUseBlock n => [.toolMarker n]
  | .otherBlock => []

/-- The `async for` loop of `_run_claude`, with the accumulated output log
and the current `result_info` (empty until a `ResultMessage` arrives,
overwritten by each one) threaded through. -/
def runClaudeAux :
    List OutputItem → Option ResultInfo → List SdkMessage →
    List OutputItem × Option ResultInfo
  | out, info, [] => (out, info)
  | out, info, .assistant blocks :: rest =>
    runClaudeAux (out ++ blocks.flatMap renderBlock) info rest
  | out, _, .result r :: rest => runClaudeAux out (some r) rest
  | out, info, .other :: rest => runClaudeAux out info rest

/-- The `_run_claude` loop on a whole inbound stream: the output writes in order, and
the returned `result_info` (`none` models the empty dict returned when the
stream carried no `ResultMessage`). -/
def run_claude (msgs : List SdkMessage) : List OutputItem × Option ResultInfo :=
  runClaudeAux [] none msgs

/-- The writes a single message contributes, used to state order
preservation of the streamed output. -/
def msgOutput : SdkMessage → List OutputItem
  | .assistant blocks => blocks.flatMap renderBlock
  | .result _ => []
  | .other => []

/-- Whether the message is a `ResultMessage`. -/
def isResultMsg : SdkMessage → Bool
  | .result _ => true
  | _ => false

/-- How every caller reads the cost out of `_run_claude`'s return value:
`info.get("total_cost_usd", 0) or 0` — 0 when the dict is empty and 0 when
the SDK reported `None`. -/
def infoCost : Option ResultInfo → Rat
  | none => 0
  | some r =>
    match r.total_cost_usd with
    | none => 0
    | some c => c

/-- How every caller reads the turn count: `info.get("num_turns", 0)`. -/
def infoTurns : Option ResultInfo → Int
  | none => 0
  | some r => r.num_turns

/-- Modelled from the spec: the `succeeded` field of the spec's
SessionResult, which the implementation never materialises (it returns the
raw `result_info` dict).  Per §4.4, an absent result is a failure and an
explicit result succeeds exactly when `is_error` is false. -/
def sessionSucceeded : Option ResultInfo → Bool
  | none => false
  | some r => !r.is_error

/-! ## Progress totals `update_info` (source lines 425-430) -/

/-- The driver's cumulative counters `total_cost` / `total_turns`. -/
structure AppInfo where
  total_cost : Rat
  total_turns : Int
deriving DecidableEq

/-- The `update_info` method: add one session's cost and turns to the running totals. -/
def update_info (s : AppInfo) (cost : Rat) (turns : Int) : AppInfo :=
  ⟨s.total_cost + cost, s.total_turns + turns⟩

/-- The totals at startup (`__init__`: `0.0` and `0`). -/
def initInfo : AppInfo := ⟨0, 0⟩

/-- Recording a sequence of `(cost, turns)` results in order. -/
def recordAll (s : AppInfo) (rs : List (Rat × Int)) : AppInfo :=
  rs.foldl (fun acc r => update_info acc r.1 r.2) s

/-! ## Installer `action_run_install` (source lines 497-513) -/

/-- A filesystem path, as components. -/
abbrev PathSeg := List String

/-- A filesystem: the set of existing directories and a map from file path
to content (newest entry first, so a write shadows older entries). -/
structure FileSystem where
  dirs : List PathSeg
  files : List (PathSeg × String)
deriving DecidableEq

/-- Python `Path.read_text()`; `none` when the file does not exist. -/
def readText (fs : FileSystem) (p : PathSeg) : Option String :=
  (fs.files.find? fun e => e.1 == p).map fun e => e.2

/-- Python `Path.write_text(content)`: create or overwrite unconditionally. -/
def writeText (fs : FileSystem) (p : PathSeg) (content : String) : FileSystem :=
  ⟨fs.dirs, (p, content) :: fs.files⟩

/-- The non-empty prefixes of a directory path. -/
def pathPrefixes (dir : PathSeg) : List PathSeg :=
  (List.range dir.length).map fun i => dir.take (i + 1)

/-- Python `Path.mkdir(parents=True, exist_ok=True)`: create the directory and all
its ancestors, never failing on existing ones. -/
def mkdirParents (fs : FileSystem) (dir : PathSeg) : FileSystem :=
  ⟨fs.dirs ++ (pathPrefixes dir).filter (fun d => !(fs.dirs.contains d)), fs.files⟩

/-- Python `str.replace('_', '-')`: substitute a hyphen for every
underscore. -/
def replaceUnderscores (s : List Char) : List Char :=
  s.map fun c => if c == '_' then '-' else c

/-- The command name the source derives (line 505):
`f"resume-{self.slug.replace('_', '-')}"`. -/
def cmdNameOf (slug : List Char) : List Char :=
  "resume-".data ++ replaceUnderscores slug

/-- The default command name as §4.6 of the spec words it: "a normalized
form of the identity (hyphens substituted for underscores)", with no
prefix.  Stated for comparison against `cmdNameOf`. -/
def specDefaultName (slug : List Char) : List Char :=
  replaceUnderscores slug

/-- The fixed target directory `.claude/commands` of the install action. -/
def commandsDir : PathSeg := [".claude", "commands"]

/-- The body of `action_run_install` after its guards: derive the command
name, create `.claude/commands` (and parents), and copy the resume prompt's
content to `{cmd_name}.md` there.  When the resume-prompt file is absent
from the filesystem `read_text` would raise; that branch leaves the
filesystem after the `mkdir` and is excluded by hypothesis in the theorems
below. -/
def installCommand (fs : FileSystem) (resumePath : PathSeg) (slug : List Char) :
    FileSystem × PathSeg :=
  let target : PathSeg := commandsDir ++ [String.mk (cmdNameOf slug) ++ ".md"]
  let fs1 := mkdirParents fs commandsDir
  match readText fs resumePath with
  | some content => (writeText fs1 target content, target)
  | none => (fs1, target)

/-! ## Helper lemmas -/

theorem toNat_ofNat_valid (n : Nat) (h : n < 55296) : (Char.ofNat n).toNat = n := by
  have hv : n.isValidChar := Or.inl h
  rw [Char.ofNat, dif_pos hv]
  simp [Char.ofNatAux, Char.toNat, UInt32.toNat]

theorem isSlugChar_underscore : isSlugChar '_' = false := by decide

theorem lowerChar_slug (c : Char) : isSlugChar (lowerChar c) = isAsciiAlnum c := by
  by_cases h : isUpperAscii c = true
  · have hb : 65 ≤ c.toNat ∧ c.toNat ≤ 90 := by
      simpa [isUpperAscii, Bool.and_eq_true, decide_eq_true_eq] using h
    have hval : (Char.ofNat (c.toNat + 32)).toNat = c.toNat + 32 :=
      toNat_ofNat_valid _ (by omega)
    have hslug : isSlugChar (Char.ofNat (c.toNat + 32)) = true := by
      simp only [isSlugChar, hval, Bool.or_eq_true, Bool.and_eq_true, decide_eq_true_eq]
      omega
    rw [lowerChar, if_pos h, hslug, isAsciiAlnum, h, Bool.or_true]
  · have hfalse : isUpperAscii c = false := Bool.eq_false_iff.mpr h
    rw [lowerChar, if_neg h, isAsciiAlnum, hfalse, Bool.or_false]

theorem subNonSlug_filter (flag : Bool) (l : List Char) :
    (subNonSlug flag l).filter isSlugChar = l.filter isSlugChar := by
  induction l generalizing flag with
  | nil => rfl
  | cons c cs ih =>
    simp only [subNonSlug]
    by_cases hc : isSlugChar c = true
    · rw [if_pos hc]
      simp only [List.filter_cons, hc, if_true]
      rw [ih]
    · rw [if_neg hc]
      have hcf : isSlugChar c = false := Bool.eq_false_iff.mpr hc
      cases flag with
      | true =>
        rw [if_pos rfl, ih]
        simp [List.filter_cons, hcf]
      | false =>
        rw [if_neg Bool.false_ne_true]
        simp [List.filter_cons, hcf, isSlugChar_underscore, ih]

theorem filter_dropWhileUnd (l : List Char) :
    (l.dropWhile (fun d => d == '_')).filter isSlugChar = l.filter isSlugChar := by
  conv_rhs => rw [← List.takeWhile_append_dropWhile (fun d => d == '_') l]
  rw [List.filter_append]
  have htake : (l.takeWhile (fun d => d == '_')).filter isSlugChar = [] := by
    rw [List.filter_eq_nil_iff]
    intro a ha
    have hbeq := List.mem_takeWhile_imp ha
    have ha' : a = '_' := by simpa using hbeq
    simp [ha', isSlugChar_underscore]
  rw [htake, List.nil_append]

theorem stripChar_filter (l : List Char) :
    (stripChar '_' l).filter isSlugChar = l.filter isSlugChar := by
  simp [stripChar, List.filter_reverse, filter_dropWhileUnd]

theorem head?_dropWhile_ne (p : Char → Bool) : ∀ (l : List Char) {a : Char},
    (l.dropWhile p).head? = some a → p a = false := by
  intro l
  induction l with
  | nil => intro a h; simp at h
  | cons c cs ih =>
    intro a h
    rw [List.dropWhile_cons] at h
    by_cases hc : p c = true
    · rw [if_pos hc] at h
      exact ih h
    · rw [if_neg hc] at h
      have hca : c = a := by simpa using h
      rw [← hca]
      exact Bool.eq_false_iff.mpr hc

theorem dropWhile_sfx (p : Char → Bool) (l : List Char) : l.dropWhile p <:+ l :=
  ⟨l.takeWhile p, List.takeWhile_append_dropWhile p l⟩

theorem subNonSlug_mem (flag : Bool) (l : List Char) :
    ∀ c ∈ subNonSlug flag l, isSlugChar c = true ∨ c = '_' := by
  induction l generalizing flag with
  | nil => intro c hc; simp [subNonSlug] at hc
  | cons a as ih =>
    intro c hc
    simp only [subNonSlug] at hc
    by_cases ha : isSlugChar a = true
    · rw [if_pos ha] at hc
      rcases List.mem_cons.mp hc with h | h
      · left; rwa [h]
      · exact ih false c h
    · rw [if_neg ha] at hc
      cases flag with
      | true =>
        rw [if_pos rfl] at hc
        exact ih true c hc
      | false =>
        rw [if_neg Bool.false_ne_true] at hc
        rcases List.mem_cons.mp hc with h | h
        · right; exact h
        · exact ih true c h

theorem subNonSlug_true_head (l : List Char) :
    ∀ a ∈ (subNonSlug true l).head?, isSlugChar a = true := by
  induction l with
  | nil => intro a ha; simp [subNonSlug] at ha
  | cons c cs ih =>
    intro a ha
    simp only [subNonSlug] at ha
    by_cases hc : isSlugChar c = true
    · rw [if_pos hc] at ha
      have hca : c = a := by simpa using ha
      rwa [← hca]
    · rw [if_neg hc, if_pos trivial] at ha
      exact ih a ha

theorem subNonSlug_chain (flag : Bool) (l : List Char) :
    List.Chain' notBothUnd (subNonSlug flag l) := by
  induction l generalizing flag with
  | nil => simp [subNonSlug]
  | cons c cs ih =>
    simp only [subNonSlug]
    by_cases hc : isSlugChar c = true
    · rw [if_pos hc, List.chain'_cons']
      refine ⟨?_, ih false⟩
      intro b _ hcontra
      obtain ⟨h1, _⟩ := hcontra
      rw [h1, isSlugChar_underscore] at hc
      exact Bool.false_ne_true hc
    · rw [if_neg hc]
      cases flag with
      | true =>
        rw [if_pos rfl]
        exact ih true
      | false =>
        rw [if_neg Bool.false_ne_true, List.chain'_cons']
        refine ⟨?_, ih true⟩
        intro b hb hcontra
        obtain ⟨_, h2⟩ := hcontra
        have hbslug := subNonSlug_true_head cs b hb
        rw [h2, isSlugChar_underscore] at hbslug
        exact Bool.false_ne_true hbslug

theorem notBothUnd_flip (a b : Char) (h : notBothUnd a b) : flip notBothUnd a b :=
  fun hcontra => h ⟨hcontra.2, hcontra.1⟩

theorem afterRun_of_wf : ∀ (n : Nat) (l : List Char), l.length ≤ n →
    (∀ c ∈ l, isSlugChar c = true ∨ c = '_') →
    List.Chain' notBothUnd l →
    l.getLast? ≠ some '_' →
    afterRun l = true := by
  intro n
  induction n with
  | zero =>
    intro l hl _ _ _
    have hnil : l = [] := List.length_eq_zero.mp (Nat.le_zero.mp hl)
    subst hnil
    rfl
  | succ n ih =>
    intro l hl hmem hchain hlast
    cases l with
    | nil => rfl
    | cons c cs =>
      have hcmem := hmem c (List.mem_cons_self c cs)
      cases cs with
      | nil =>
        have hcne : c ≠ '_' := fun hcu => hlast (by rw [hcu]; rfl)
        have hcslug := hcmem.resolve_right hcne
        simpa [afterRun] using hcslug
      | cons d ds =>
        by_cases hc : isSlugChar c = true
        · have heq : afterRun (c :: d :: ds) = afterRun (d :: ds) := by
            simp [afterRun, hc]
          rw [heq]
          refine ih (d :: ds) ?_ (fun x hx => hmem x (List.mem_cons_of_mem _ hx))
            ((List.chain'_cons'.mp hchain).2) ?_
          · simp only [List.length_cons] at hl ⊢
            omega
          · rwa [List.getLast?_cons_cons] at hlast
        · have hcund : c = '_' := hcmem.resolve_left hc
          subst hcund
          obtain ⟨hnb, hchain'⟩ := List.chain'_cons.mp hchain
          have hd : d ≠ '_' := fun hdu => hnb ⟨rfl, hdu⟩
          have hdslug : isSlugChar d = true :=
            (hmem d (List.mem_cons_of_mem _ (List.mem_cons_self d ds))).resolve_right hd
          have heq : afterRun ('_' :: d :: ds) = (isSlugChar d && afterRun ds) := rfl
          rw [heq, hdslug, Bool.true_and]
          refine ih ds ?_
            (fun x hx => hmem x (List.mem_cons_of_mem _ (List.mem_cons_of_mem _ hx)))
            ((List.chain'_cons'.mp hchain').2) ?_
          · simp only [List.length_cons] at hl ⊢
            omega
          · cases ds with
            | nil => simp
            | cons e es =>
              rw [List.getLast?_cons_cons, List.getLast?_cons_cons] at hlast
              exact hlast

theorem pyLowerChar_ascii (c : Char) (h : isAscii c = true) :
    pyLowerChar c = [lowerChar c] := by
  have hn : c.toNat ≤ 127 := by
    simpa [isAscii, decide_eq_true_eq] using h
  by_cases hu : isUpperAscii c = true
  · rw [pyLowerChar, if_pos hu, lowerChar, if_pos hu]
  · have hk : ¬(c = 'K') := fun he => by
      rw [he] at hn
      exact absurd hn (by decide)
    have hi : ¬(c = 'İ') := fun he => by
      rw [he] at hn
      exact absurd hn (by decide)
    rw [pyLowerChar, if_neg hu, if_neg hk, if_neg hi, lowerChar, if_neg hu]

theorem flatMap_pyLowerChar_ascii (s : List Char) (h : ∀ c ∈ s, isAscii c = true) :
    s.flatMap pyLowerChar = s.map lowerChar := by
  induction s with
  | nil => rfl
  | cons c cs ih =>
    rw [List.flatMap_cons, List.map_cons,
      pyLowerChar_ascii c (h c (List.mem_cons_self c cs)),
      ih fun x hx => h x (List.mem_cons_of_mem _ hx)]
    rfl

theorem slugify_all_slug_or_und (s : List Char) :
    ∀ c ∈ slugify s, isSlugChar c = true ∨ c = '_' := by
  intro c hc
  rw [slugify, stripChar] at hc
  rw [List.mem_reverse] at hc
  have h1 := (dropWhile_sfx _ _).subset hc
  rw [List.mem_reverse] at h1
  have h2 := (dropWhile_sfx _ _).subset h1
  exact subNonSlug_mem false _ c h2

theorem slugify_chain (s : List Char) : List.Chain' notBothUnd (slugify s) := by
  rw [slugify, stripChar]
  have h1 : List.Chain' notBothUnd
      (subNonSlug false (s.flatMap pyLowerChar)) := subNonSlug_chain false _
  have h2 : List.Chain' notBothUnd
      ((subNonSlug false (s.flatMap pyLowerChar)).dropWhile (fun d => d == '_')) :=
    h1.suffix (dropWhile_sfx _ _)
  have h3 : List.Chain' notBothUnd
      (((subNonSlug false (s.flatMap pyLowerChar)).dropWhile (fun d => d == '_')).reverse) :=
    List.chain'_reverse.mpr (h2.imp notBothUnd_flip)
  have h4 := h3.suffix (dropWhile_sfx (fun d => d == '_') _)
  exact List.chain'_reverse.mpr (h4.imp notBothUnd_flip)

theorem slugify_last_ne_und (s : List Char) : (slugify s).getLast? ≠ some '_' := by
  rw [slugify, stripChar, List.getLast?_reverse]
  intro h
  have := head?_dropWhile_ne (fun d => d == '_') _ h
  simp at this

theorem slugify_head_slug (s : List Char) {a : Char}
    (h : (slugify s).head? = some a) : isSlugChar a = true := by
  rw [slugify, stripChar] at h
  set dw1 := (subNonSlug false (s.flatMap pyLowerChar)).dropWhile (fun d => d == '_') with hdw1
  set dw2 := dw1.reverse.dropWhile (fun d => d == '_') with hdw2
  obtain ⟨t, ht⟩ := dropWhile_sfx (fun d => d == '_') dw1.reverse
  have hpre : dw1 = dw2.reverse ++ t.reverse := by
    have hc := congrArg List.reverse ht
    simpa using hc.symm
  have hhead : dw1.head? = some a := by
    rw [hpre, List.head?_append, h]
    rfl
  have hne := head?_dropWhile_ne (fun d => d == '_') _ hhead
  have hne' : a ≠ '_' := by simpa using hne
  have hmem : a ∈ dw1 := by
    rw [hpre]
    exact List.mem_append_left _ (List.mem_of_mem_head? (Option.mem_def.mpr h))
  have hall := subNonSlug_mem false _ a ((dropWhile_sfx _ _).subset hmem)
  exact hall.resolve_right hne'

theorem slugify_eq_nil_iff (s : List Char) (hascii : ∀ c ∈ s, isAscii c = true) :
    slugify s = [] ↔ ∀ c ∈ s, isAsciiAlnum c = false := by
  have hfilter : (slugify s).filter isSlugChar = (s.map lowerChar).filter isSlugChar := by
    rw [slugify, stripChar_filter, subNonSlug_filter, flatMap_pyLowerChar_ascii s hascii]
  constructor
  · intro h
    rw [h] at hfilter
    intro c hc
    by_contra hcon
    have halnum : isAsciiAlnum c = true := by
      cases hval : isAsciiAlnum c with
      | true => rfl
      | false => exact absurd hval hcon
    have hslug : isSlugChar (lowerChar c) = true := by
      rw [lowerChar_slug]; exact halnum
    have hmm : lowerChar c ∈ (s.map lowerChar).filter isSlugChar :=
      List.mem_filter.mpr ⟨List.mem_map_of_mem lowerChar hc, hslug⟩
    rw [← hfilter] at hmm
    simp at hmm
  · intro h
    by_contra hne
    cases hv : slugify s with
    | nil => exact hne hv
    | cons a rest =>
      have hhead : (slugify s).head? = some a := by rw [hv]; rfl
      have haslug : isSlugChar a = true := slugify_head_slug s hhead
      have hamem : a ∈ (slugify s).filter isSlugChar :=
        List.mem_filter.mpr ⟨by rw [hv]; exact List.mem_cons_self a rest, haslug⟩
      rw [hfilter] at hamem
      have hamem' := (List.mem_filter.mp hamem).1
      obtain ⟨x, hx, hxa⟩ := List.mem_map.mp hamem'
      have hax : isAsciiAlnum x = true := by
        rw [← lowerChar_slug, hxa]; exact haslug
      rw [h x hx] at hax
      exact Bool.false_ne_true hax

theorem pyStem_md (q : List Char) (hq : q ≠ []) :
    pyStem (q ++ ('.' :: 'm' :: 'd' :: [])) = q := by
  have hrev : (q ++ ('.' :: 'm' :: 'd' :: [])).reverse = 'd' :: 'm' :: '.' :: q.reverse := by
    simp
  have hfind : List.findIdx? (fun c => c == '.')
      ((q ++ ('.' :: 'm' :: 'd' :: [])).reverse) = some 2 := by
    rw [hrev]
    simp [List.findIdx?_cons]
  have hlen : (q ++ ('.' :: 'm' :: 'd' :: [])).length = q.length + 3 := by simp
  have hq1 : 0 < q.length := List.length_pos.mpr hq
  rw [pyStem, hfind]
  have hcond : (decide ((0 : Nat) < 2) &&
      decide (2 < (q ++ ('.' :: 'm' :: 'd' :: [])).length - 1)) = true := by
    rw [hlen]
    simp only [Bool.and_eq_true, decide_eq_true_eq]
    omega
  simp only [hcond, if_true, hlen]
  rw [hlen] at hcond
  simp [hcond, hq]

theorem dropSuffixLen_append (t suf : List Char) :
    dropSuffixLen (t ++ suf) suf.length = t := by
  rw [dropSuffixLen, List.length_append, Nat.add_sub_cancel, List.take_left]

theorem suffix_getLast_ne (c d : Char) {s l : List Char}
    (hs : s.getLast? = some c) (hl : l.getLast? = some d) (hcd : c ≠ d) :
    s.isSuffixOf l = false := by
  refine Bool.eq_false_iff.mpr fun hsuff => ?_
  rw [List.isSuffixOf_iff_suffix] at hsuff
  obtain ⟨t, rfl⟩ := hsuff
  have hsne : s ≠ [] := by rintro rfl; simp at hs
  rw [List.getLast?_append_of_ne_nil t hsne, hs] at hl
  exact hcd (Option.some.inj hl)

theorem stripKnownSuffix_arch (t : List Char) :
    stripKnownSuffix (t ++ sufArchitecture) = some t := by
  rw [stripKnownSuffix,
    if_pos (List.isSuffixOf_iff_suffix.mpr (List.suffix_append t sufArchitecture)),
    dropSuffixLen_append]

theorem stripKnownSuffix_road (t : List Char) :
    stripKnownSuffix (t ++ sufRoadmap) = some t := by
  have hlast : (t ++ sufRoadmap).getLast? = some 'P' := by
    rw [List.getLast?_append_of_ne_nil _ (show sufRoadmap ≠ [] from by decide)]
    decide
  have h1 : sufArchitecture.isSuffixOf (t ++ sufRoadmap) = false :=
    suffix_getLast_ne 'E' 'P'
      (show sufArchitecture.getLast? = some 'E' from by decide) hlast (by decide)
  rw [stripKnownSuffix, h1]
  simp only [Bool.false_eq_true, if_false]
  rw [if_pos (List.isSuffixOf_iff_suffix.mpr (List.suffix_append t sufRoadmap)),
    dropSuffixLen_append]

theorem stripKnownSuffix_resume (t : List Char) :
    stripKnownSuffix (t ++ sufResumePrompt) = some t := by
  have hlast : (t ++ sufResumePrompt).getLast? = some 'T' := by
    rw [List.getLast?_append_of_ne_nil _ (show sufResumePrompt ≠ [] from by decide)]
    decide
  have h1 : sufArchitecture.isSuffixOf (t ++ sufResumePrompt) = false :=
    suffix_getLast_ne 'E' 'T'
      (show sufArchitecture.getLast? = some 'E' from by decide) hlast (by decide)
  have h2 : sufRoadmap.isSuffixOf (t ++ sufResumePrompt) = false :=
    suffix_getLast_ne 'P' 'T'
      (show sufRoadmap.getLast? = some 'P' from by decide) hlast (by decide)
  rw [stripKnownSuffix, h1, h2]
  simp only [Bool.false_eq_true, if_false]
  rw [if_pos (List.isSuffixOf_iff_suffix.mpr (List.suffix_append t sufResumePrompt)),
    dropSuffixLen_append]

theorem stripPhaseIndexSuffix_pi (t : List Char) :
    stripPhaseIndexSuffix (t ++ sufPhaseIndex) = some t := by
  rw [stripPhaseIndexSuffix,
    if_pos (List.isSuffixOf_iff_suffix.mpr (List.suffix_append t sufPhaseIndex)),
    dropSuffixLen_append]

theorem glob_suffix {sufMd : List Char} {l : List FileName} {f : FileName}
    (h : globFirst sufMd l = some f) : sufMd <:+ f :=
  List.isSuffixOf_iff_suffix.mp (List.find?_some h)

theorem pyStem_of_md_suffix {suf f : List Char} (hs : suf ≠ [])
    (h : (suf ++ ('.' :: 'm' :: 'd' :: [])) <:+ f) : ∃ t, pyStem f = t ++ suf := by
  obtain ⟨pre, hf⟩ := h
  refine ⟨pre, ?_⟩
  rw [← hf, ← List.append_assoc]
  exact pyStem_md (pre ++ suf)
    fun hcontra => hs (List.append_eq_nil.mp hcontra).2

theorem runClaudeAux_snd_of_no_result (out : List OutputItem) (info : Option ResultInfo)
    (msgs : List SdkMessage) (h : ∀ m ∈ msgs, isResultMsg m = false) :
    (runClaudeAux out info msgs).2 = info := by
  induction msgs generalizing out info with
  | nil => rfl
  | cons m rest ih =>
    cases m with
    | assistant blocks =>
      exact ih _ _ fun m hm => h m (List.mem_cons_of_mem _ hm)
    | result r =>
      exact absurd (h _ (List.mem_cons_self _ _)) (by simp [isResultMsg])
    | other =>
      exact ih _ _ fun m hm => h m (List.mem_cons_of_mem _ hm)

theorem runClaudeAux_fst (out : List OutputItem) (info : Option ResultInfo)
    (msgs : List SdkMessage) :
    (runClaudeAux out info msgs).1 = out ++ msgs.flatMap msgOutput := by
  induction msgs generalizing out info with
  | nil => simp [runClaudeAux]
  | cons m rest ih =>
    cases m with
    | assistant blocks => simp [runClaudeAux, msgOutput, ih, List.append_assoc]
    | result r => simp [runClaudeAux, msgOutput, ih]
    | other => simp [runClaudeAux, msgOutput, ih]

theorem runClaudeAux_snd_append_result (out : List OutputItem) (info : Option ResultInfo)
    (pre : List SdkMessage) (r : ResultInfo) :
    (runClaudeAux out info (pre ++ [SdkMessage.result r])).2 = some r := by
  induction pre generalizing out info with
  | nil => rfl
  | cons m rest ih =>
    cases m with
    | assistant blocks => exact ih _ _
    | result r' => exact ih _ _
    | other => exact ih _ _

theorem reachable_active_eq (s : Driver) (h : Reachable s) :
    s.active = (if s.running then 1 else 0) := by
  induction h with
  | init => rfl
  | press s p files hs ih =>
    by_cases hr : s.running
    · simpa [pressButton, hr] using ih
    · cases hg : gateCheck p files with
      | refuse m => simpa [pressButton, hr, hg] using ih
      | start =>
        simp only [pressButton, hr, hg, if_false, Bool.false_eq_true]
        simpa [hr] using ih
  | finish s hs hr ih =>
    simp only [finishSession]
    rw [hr] at ih
    simp at ih
    simp [ih]

theorem recordAll_eq_sums (s : AppInfo) (rs : List (Rat × Int)) :
    recordAll s rs =
      ⟨s.total_cost + (rs.map Prod.fst).sum, s.total_turns + (rs.map Prod.snd).sum⟩ := by
  induction rs generalizing s with
  | nil => simp [recordAll]
  | cons r rs ih =>
    show recordAll (update_info s r.1 r.2) rs = _
    rw [ih]
    simp [update_info, add_assoc]

theorem mem_mkdirParents_dirs (fs : FileSystem) (dir : PathSeg) (d : PathSeg)
    (h : d ∈ pathPrefixes dir) : d ∈ (mkdirParents fs dir).dirs := by
  simp only [mkdirParents]
  by_cases hc : d ∈ fs.dirs
  · exact List.mem_append_left _ hc
  · refine List.mem_append_right _ (List.mem_filter.2 ⟨h, ?_⟩)
    simpa using hc

/-! ## Claims -/

/-- C1: for every `ArtifactSet` (hence all 2^4 presence combinations of the
four artifact kinds), phase eligibility follows the fixed prerequisite
table — `roadmap` iff `architecture` is present, `phases` iff `roadmap`,
`prompt` iff `phase_index`, `execute` iff `resume_prompt`, and `plan`
always — and a blocked action refuses with the message naming the missing
prerequisite instead of raising. -/
theorem C1_phase_gate (files : ArtifactSet) :
    gateCheck .plan files = .start
    ∧ (gateCheck .roadmap files = .start ↔ files.architecture.isSome = true)
    ∧ (gateCheck .phases files = .start ↔ files.roadmap.isSome = true)
    ∧ (gateCheck .prompt files = .start ↔ files.phase_index.isSome = true)
    ∧ (gateCheck .execute files = .start ↔ files.resume_prompt.isSome = true)
    ∧ (files.architecture.isSome = false →
        gateCheck .roadmap files =
          .refuse "[red]No architecture file found. Run Plan first.[/red]\n")
    ∧ (files.roadmap.isSome = false →
        gateCheck .phases files =
          .refuse "[red]No roadmap file found. Run Roadmap first.[/red]\n")
    ∧ (files.phase_index.isSome = false →
        gateCheck .prompt files =
          .refuse "[red]No phase files found. Run Phases first.[/red]\n")
    ∧ (files.resume_prompt.isSome = false →
        gateCheck .execute files =
          .refuse "[red]No resume prompt found. Run Prompt first.[/red]\n") := by
  obtain ⟨a, r, p, rp⟩ := files
  cases a <;> cases r <;> cases p <;> cases rp <;> simp [gateCheck]

/-- C1 witness: on an empty project the roadmap action refuses and names the
missing architecture artifact. -/
theorem C1_phase_gate_witness :
    gateCheck .roadmap ⟨none, none, none, none⟩ =
      .refuse "[red]No architecture file found. Run Plan first.[/red]\n" :=
  (C1_phase_gate ⟨none, none, none, none⟩).2.2.2.2.2.1 rfl

/-- C2: a provider stream that never produces a result event yields an empty
`result_info`, which every caller reads as cost 0 and turns 0 and the spec
reads as `succeeded = false`, and which differs from every explicitly
reported `is_error = true` result. -/
theorem C2_absent_result (msgs : List SdkMessage)
    (h : ∀ m ∈ msgs, isResultMsg m = false) :
    (run_claude msgs).2 = none
    ∧ infoCost (run_claude msgs).2 = 0
    ∧ infoTurns (run_claude msgs).2 = 0
    ∧ sessionSucceeded (run_claude msgs).2 = false
    ∧ ∀ r : ResultInfo, r.is_error = true → (run_claude msgs).2 ≠ some r := by
  have hnone : (run_claude msgs).2 = none := runClaudeAux_snd_of_no_result [] none msgs h
  refine ⟨hnone, ?_, ?_, ?_, ?_⟩
  · rw [hnone]; rfl
  · rw [hnone]; rfl
  · rw [hnone]; rfl
  · intro r _ hcontra
    rw [hnone] at hcontra
    exact Option.noConfusion hcontra

/-- C2 witness: a stream of one assistant message and one ignored message,
with no result event. -/
theorem C2_absent_result_witness :
    (run_claude [SdkMessage.assistant [ContentBlock.textBlock "partial output"],
        SdkMessage.other]).2 = none
    ∧ infoCost (run_claude [SdkMessage.assistant [ContentBlock.textBlock "partial output"],
        SdkMessage.other]).2 = 0 := by
  have h := C2_absent_result
    [SdkMessage.assistant [ContentBlock.textBlock "partial output"], SdkMessage.other]
    (by decide)
  exact ⟨h.1, h.2.1⟩

/-- C4: the session run forwards text events verbatim and in order, forwards
tool-use events as distinct markers carrying only the tool name, the last
result event's fields become the returned result info, and the concrete
stream ending in `result(cost=0.42, turns=3, session_id="abc",
is_error=false)` reads back as cost 0.42, turns 3, succeeded. -/
theorem C4_event_forwarding :
    (∀ msgs : List SdkMessage, (run_claude msgs).1 = msgs.flatMap msgOutput)
    ∧ (∀ blocks : List ContentBlock,
        msgOutput (.assistant blocks) = blocks.flatMap renderBlock)
    ∧ (∀ t : String, renderBlock (.textBlock t) = [.text t])
    ∧ (∀ n : String, renderBlock (.toolUseBlock n) = [.toolMarker n])
    ∧ (∀ (pre : List SdkMessage) (r : ResultInfo),
        (run_claude (pre ++ [SdkMessage.result r])).2 = some r)
    ∧ infoCost (run_claude [SdkMessage.result ⟨1000, 3, some 0.42, "abc", false⟩]).2 = 0.42
    ∧ infoTurns (run_claude [SdkMessage.result ⟨1000, 3, some 0.42, "abc", false⟩]).2 = 3
    ∧ sessionSucceeded
        (run_claude [SdkMessage.result ⟨1000, 3, some 0.42, "abc", false⟩]).2 = true := by
  refine ⟨?_, ?_, ?_, ?_, ?_, ?_, ?_, ?_⟩
  · intro msgs; simpa using runClaudeAux_fst [] none msgs
  · intro blocks; rfl
  · intro t; rfl
  · intro n; rfl
  · intro pre r; exact runClaudeAux_snd_append_result [] none pre r
  · rfl
  · rfl
  · rfl

/-- C5 counterexample: CPython lowercases U+212A KELVIN SIGN to `k`, so
`slugify` of the one-character string U+212A is the non-empty slug `k`
although the input contains no alphanumeric character in `[a-zA-Z0-9]` —
refuting, over every input string, "the empty string exactly when the
input contains no alphanumeric characters". -/
theorem C5_slugify_regex_counterexample :
    slugify ['K'] = ['k']
    ∧ (∀ c ∈ (['K'] : List Char), isAsciiAlnum c = false)
    ∧ ¬(slugify ['K'] = [] ↔ ∀ c ∈ (['K'] : List Char), isAsciiAlnum c = false) := by
  refine ⟨by decide, by decide, by decide⟩

/-- C5 amended: for every input string, a non-empty `slugify` output matches
`^[a-z0-9]+(_[a-z0-9]+)*$`; and for every ASCII input string the output is
empty exactly when the input contains no alphanumeric characters (beyond
ASCII, Python's lowercasing can map characters into `[a-z0-9]`, so the
emptiness biconditional holds only on the ASCII domain). -/
theorem C5_slugify_regex (s : List Char) :
    (slugify s ≠ [] → matchesSlugRegex (slugify s) = true)
    ∧ ((∀ c ∈ s, isAscii c = true) →
        (slugify s = [] ↔ ∀ c ∈ s, isAsciiAlnum c = false)) := by
  refine ⟨?_, slugify_eq_nil_iff s⟩
  intro hne
  cases hv : slugify s with
  | nil => exact absurd hv hne
  | cons a rest =>
    have hhead : (slugify s).head? = some a := by rw [hv]; rfl
    have haslug := slugify_head_slug s hhead
    have hmem := slugify_all_slug_or_und s
    have hchain := slugify_chain s
    have hlast := slugify_last_ne_und s
    rw [hv] at hmem hchain hlast
    have hm : matchesSlugRegex (a :: rest) = (isSlugChar a && afterRun rest) := rfl
    rw [hm, haslug, Bool.true_and]
    refine afterRun_of_wf rest.length rest le_rfl
      (fun x hx => hmem x (List.mem_cons_of_mem _ hx))
      ((List.chain'_cons'.mp hchain).2) ?_
    cases rest with
    | nil => simp
    | cons b bs => rwa [List.getLast?_cons_cons] at hlast

/-- C5 witness: `slugify "Add OAuth login!!"` is the non-empty slug
`add_oauth_login`, which matches the regex; and on the all-ASCII string of
two spaces the output is empty, in line with the absence of alphanumerics. -/
theorem C5_slugify_regex_witness :
    matchesSlugRegex (slugify "Add OAuth login!!".data) = true
    ∧ (slugify "  ".data = [] ↔ ∀ c ∈ "  ".data, isAsciiAlnum c = false) :=
  ⟨(C5_slugify_regex "Add OAuth login!!".data).1 (by decide),
   (C5_slugify_regex "  ".data).2 (by decide)⟩

/-- C6: the progress totals equal the componentwise sums of all recorded
results, and both totals are non-decreasing across every record operation
when the recorded costs and turns are non-negative. -/
theorem C6_progress_totals (rs : List (Rat × Int))
    (h : ∀ r ∈ rs, 0 ≤ r.1 ∧ 0 ≤ r.2) :
    recordAll initInfo rs = ⟨(rs.map Prod.fst).sum, (rs.map Prod.snd).sum⟩
    ∧ ∀ i < rs.length,
        (recordAll initInfo (rs.take i)).total_cost ≤
          (recordAll initInfo (rs.take (i + 1))).total_cost
        ∧ (recordAll initInfo (rs.take i)).total_turns ≤
          (recordAll initInfo (rs.take (i + 1))).total_turns := by
  constructor
  · rw [recordAll_eq_sums]; simp [initInfo]
  · intro i hi
    have htake : rs.take (i + 1) = rs.take i ++ [rs[i]] := by
      rw [List.take_succ]
      simp [List.getElem?_eq_getElem hi]
    have hmem : rs[i] ∈ rs := List.getElem_mem hi
    have happ : recordAll initInfo (rs.take i ++ [rs[i]]) =
        update_info (recordAll initInfo (rs.take i)) rs[i].1 rs[i].2 := by
      simp only [recordAll, List.foldl_append, List.foldl_cons, List.foldl_nil]
    rw [htake, happ]
    constructor
    · have := (h _ hmem).1
      simp only [update_info]
      linarith
    · have := (h _ hmem).2
      simp only [update_info]
      omega

/-- C6 witness: recording `{cost=1.0, turns=2}` then `{cost=2.5, turns=1}`
yields totals `{3.5, 3}`. -/
theorem C6_progress_totals_witness :
    recordAll initInfo [((1 : Rat), (2 : Int)), (2.5, 1)] = ⟨3.5, 3⟩ := by
  have h := (C6_progress_totals [(1, 2), (2.5, 1)]
    (by intro r hr; fin_cases hr <;> constructor <;> norm_num)).1
  rw [h]
  simp only [List.map_cons, List.map_nil, List.sum_cons, List.sum_nil, AppInfo.mk.injEq]
  constructor <;> norm_num

/-- C7: in every reachable driver state at most one session is in flight,
and while one is running any press is rejected immediately with the busy
outcome and an unchanged state (so nothing is queued and no second session
starts). -/
theorem C7_single_flight (s : Driver) (h : Reachable s) :
    s.active ≤ 1
    ∧ (s.running = true → ∀ (p : PhaseAction) (files : ArtifactSet),
        pressButton s p files = (s, .rejectedBusy)) := by
  constructor
  · have hinv := reachable_active_eq s h
    split at hinv <;> omega
  · intro hr p files
    simp [pressButton, hr]

/-- C7 witness: after starting a plan session from the initial state, a
further execute press is rejected busy with the state unchanged. -/
theorem C7_single_flight_witness :
    pressButton (pressButton ⟨false, 0⟩ .plan ⟨none, none, none, none⟩).1 .execute
        ⟨none, none, none, none⟩
      = ((pressButton ⟨false, 0⟩ .plan ⟨none, none, none, none⟩).1, .rejectedBusy) :=
  (C7_single_flight _
      (Reachable.press ⟨false, 0⟩ .plan ⟨none, none, none, none⟩ Reachable.init)).2
    rfl .execute ⟨none, none, none, none⟩

/-- C8 counterexample: with identity `my_proj`, the install action derives
the command name `resume-my-proj` — not the bare normalized identity
`my-proj` the claim predicts — and writes nothing at
`.claude/commands/my-proj.md`. -/
theorem C8_install_counterexample :
    cmdNameOf "my_proj".data = "resume-my-proj".data
    ∧ specDefaultName "my_proj".data = "my-proj".data
    ∧ cmdNameOf "my_proj".data ≠ specDefaultName "my_proj".data
    ∧ readText
        (installCommand ⟨[], [(["docs", "p_RESUME_PROMPT.md"], "CONTENT")]⟩
          ["docs", "p_RESUME_PROMPT.md"] "my_proj".data).1
        (commandsDir ++ ["my-proj.md"]) = none := by
  refine ⟨by decide, by decide, by decide, by decide⟩

/-- C8 amended: install copies the resume-prompt file's content verbatim to
`.claude/commands/{name}.md`, creating the directory and its parent if
absent and overwriting any existing destination (the theorem holds for
every prior filesystem), where the name is `resume-` followed by the
identity with hyphens substituted for underscores. -/
theorem C8_install (fs : FileSystem) (resumePath : PathSeg) (slug : List Char)
    (content : String) (h : readText fs resumePath = some content) :
    (installCommand fs resumePath slug).2 =
      commandsDir ++ [String.mk (cmdNameOf slug) ++ ".md"]
    ∧ cmdNameOf slug = "resume-".data ++ replaceUnderscores slug
    ∧ readText (installCommand fs resumePath slug).1
        (installCommand fs resumePath slug).2 = some content
    ∧ [".claude"] ∈ (installCommand fs resumePath slug).1.dirs
    ∧ [".claude", "commands"] ∈ (installCommand fs resumePath slug).1.dirs := by
  have hdir1 : [".claude"] ∈ pathPrefixes commandsDir := by decide
  have hdir2 : [".claude", "commands"] ∈ pathPrefixes commandsDir := by decide
  have hinst : installCommand fs resumePath slug =
      (writeText (mkdirParents fs commandsDir)
        (commandsDir ++ [String.mk (cmdNameOf slug) ++ ".md"]) content,
       commandsDir ++ [String.mk (cmdNameOf slug) ++ ".md"]) := by
    simp only [installCommand, h]
  rw [hinst]
  refine ⟨rfl, rfl, ?_, ?_, ?_⟩
  · simp [readText, writeText]
  · exact mem_mkdirParents_dirs fs commandsDir _ hdir1
  · exact mem_mkdirParents_dirs fs commandsDir _ hdir2

/-- C8 witness: installing `docs/p_RESUME_PROMPT.md` with identity
`my_proj` places its exact content at the derived destination. -/
theorem C8_install_witness :
    readText
      (installCommand ⟨[], [(["docs", "p_RESUME_PROMPT.md"], "CONTENT")]⟩
        ["docs", "p_RESUME_PROMPT.md"] "my_proj".data).1
      (installCommand ⟨[], [(["docs", "p_RESUME_PROMPT.md"], "CONTENT")]⟩
        ["docs", "p_RESUME_PROMPT.md"] "my_proj".data).2 = some "CONTENT" :=
  (C8_install ⟨[], [(["docs", "p_RESUME_PROMPT.md"], "CONTENT")]⟩
    ["docs", "p_RESUME_PROMPT.md"] "my_proj".data "CONTENT" (by decide)).2.2.1

/-- C3 counterexample: an `ArtifactSet` whose architecture slot holds
`weird.md` — a present artifact whose stem carries no known suffix — makes
`get_slug_from_files` return `none`, refuting both "returns the
architecture filename stem with its suffix stripped" and "returns none only
when no artifact of any kind exists" for arbitrary `ArtifactSet`s. -/
theorem C3_derive_identity_counterexample :
    (ArtifactSet.mk (some "weird.md".data) none none none).architecture.isSome = true
    ∧ get_slug_from_files (ArtifactSet.mk (some "weird.md".data) none none none) = none := by
  refine ⟨rfl, by decide⟩

/-- C3 amended: restricted to slots whose filename stems follow the naming
convention (stem ends with the kind's suffix), `get_slug_from_files`
examines architecture, roadmap, resume_prompt, then phase_index in that
priority order, returns the first present artifact's stem with its known
suffix stripped — for architecture regardless of what the other slots
contain — and returns `none` when no artifact of any kind exists. -/
theorem C3_derive_identity (files : ArtifactSet) :
    (∀ f, files.architecture = some f → sufArchitecture <:+ pyStem f →
        get_slug_from_files files =
          some (dropSuffixLen (pyStem f) sufArchitecture.length))
    ∧ (files.architecture = none →
        ∀ f, files.roadmap = some f → sufRoadmap <:+ pyStem f →
        get_slug_from_files files =
          some (dropSuffixLen (pyStem f) sufRoadmap.length))
    ∧ (files.architecture = none → files.roadmap = none →
        ∀ f, files.resume_prompt = some f → sufResumePrompt <:+ pyStem f →
        get_slug_from_files files =
          some (dropSuffixLen (pyStem f) sufResumePrompt.length))
    ∧ (files.architecture = none → files.roadmap = none →
        files.resume_prompt = none →
        ∀ f, files.phase_index = some f → sufPhaseIndex <:+ pyStem f →
        get_slug_from_files files =
          some (dropSuffixLen (pyStem f) sufPhaseIndex.length))
    ∧ (files.architecture = none → files.roadmap = none →
        files.resume_prompt = none → files.phase_index = none →
        get_slug_from_files files = none) := by
  refine ⟨?_, ?_, ?_, ?_, ?_⟩
  · intro f hf hsuf
    obtain ⟨t, ht⟩ := hsuf
    rw [get_slug_from_files, hf]
    simp only [trySlot, Option.some_bind, ← ht, stripKnownSuffix_arch,
      dropSuffixLen_append]
  · intro ha f hf hsuf
    obtain ⟨t, ht⟩ := hsuf
    rw [get_slug_from_files, ha, hf]
    simp only [trySlot, Option.some_bind, Option.none_bind, ← ht,
      stripKnownSuffix_road, dropSuffixLen_append]
  · intro ha hr f hf hsuf
    obtain ⟨t, ht⟩ := hsuf
    rw [get_slug_from_files, ha, hr, hf]
    simp only [trySlot, Option.some_bind, Option.none_bind, ← ht,
      stripKnownSuffix_resume, dropSuffixLen_append]
  · intro ha hr hrp f hf hsuf
    obtain ⟨t, ht⟩ := hsuf
    rw [get_slug_from_files, ha, hr, hrp, hf]
    simp only [trySlot, Option.some_bind, Option.none_bind, ← ht,
      stripPhaseIndexSuffix_pi, dropSuffixLen_append]
  · intro ha hr hrp hp
    rw [get_slug_from_files, ha, hr, hrp, hp]
    simp [trySlot]

/-- C3 witness: with a conventional architecture file `p_ARCHITECTURE.md`
present (and a roadmap also present), the slug is `p`. -/
theorem C3_derive_identity_witness :
    get_slug_from_files
      (ArtifactSet.mk (some "p_ARCHITECTURE.md".data) (some "q_ROADMAP.md".data)
        none none) = some "p".data := by
  have h := (C3_derive_identity
      (ArtifactSet.mk (some "p_ARCHITECTURE.md".data) (some "q_ROADMAP.md".data)
        none none)).1
    "p_ARCHITECTURE.md".data rfl (by decide)
  rw [h]
  decide

/-- C9: whenever `find_planning_files` fills the resume_prompt slot, the
derived identity exists (every globbed filename necessarily ends in its
pattern's suffix), so the install action's command-name derivation never
dereferences an absent identity. -/
theorem C9_located_resume_implies_slug (d : DirListing)
    (h : (find_planning_files d).resume_prompt.isSome = true) :
    (get_slug_from_files (find_planning_files d)).isSome = true := by
  cases hd : d.docsExists with
  | false =>
    rw [find_planning_files, hd] at h
    simp at h
  | true =>
    simp only [find_planning_files, hd, if_true] at h ⊢
    cases harch : globFirst globArchitecture d.docsFiles with
    | some f =>
      have hsuf : (sufArchitecture ++ ('.' :: 'm' :: 'd' :: [])) <:+ f := by
        rw [show sufArchitecture ++ ('.' :: 'm' :: 'd' :: []) = globArchitecture
          from by decide]
        exact glob_suffix harch
      obtain ⟨t, ht⟩ := pyStem_of_md_suffix (show sufArchitecture ≠ [] from by decide) hsuf
      rw [get_slug_from_files]
      simp only [harch, trySlot, Option.some_bind, ht, stripKnownSuffix_arch]
      rfl
    | none =>
      cases hroad : globFirst globRoadmap d.docsFiles with
      | some f =>
        have hsuf : (sufRoadmap ++ ('.' :: 'm' :: 'd' :: [])) <:+ f := by
          rw [show sufRoadmap ++ ('.' :: 'm' :: 'd' :: []) = globRoadmap
            from by decide]
          exact glob_suffix hroad
        obtain ⟨t, ht⟩ := pyStem_of_md_suffix (show sufRoadmap ≠ [] from by decide) hsuf
        rw [get_slug_from_files]
        simp only [harch, hroad, trySlot, Option.some_bind, Option.none_bind, ht,
          stripKnownSuffix_road]
        rfl
      | none =>
        cases hres : globFirst globResumePrompt d.docsFiles with
        | none => rw [hres] at h; simp at h
        | some f =>
          have hsuf : (sufResumePrompt ++ ('.' :: 'm' :: 'd' :: [])) <:+ f := by
            rw [show sufResumePrompt ++ ('.' :: 'm' :: 'd' :: []) = globResumePrompt
              from by decide]
            exact glob_suffix hres
          obtain ⟨t, ht⟩ := pyStem_of_md_suffix
            (show sufResumePrompt ≠ [] from by decide) hsuf
          rw [get_slug_from_files]
          simp only [harch, hroad, hres, trySlot, Option.some_bind, Option.none_bind,
            ht, stripKnownSuffix_resume]
          rfl

/-- C9 witness: a `docs/` listing holding only `proj_RESUME_PROMPT.md`
fills the resume_prompt slot and yields a present identity. -/
theorem C9_located_resume_implies_slug_witness :
    (get_slug_from_files (find_planning_files
      ⟨true, ["proj_RESUME_PROMPT.md".data], false, []⟩)).isSome = true :=
  C9_located_resume_implies_slug ⟨true, ["proj_RESUME_PROMPT.md".data], false, []⟩
    (by decide)

/-- C10: for the 31-character description `aaaaaaaaaaaaaaaaaaaaaaaaaaaaa b`
the capped slug `slugify(description)[:30]` used by the architecture phase
ends in an underscore and does not match `^[a-z0-9]+(_[a-z0-9]+)*$`: the
length cap is applied after normalization and does not re-trim a trailing
separator. -/
theorem C10_capped_slug_trailing_underscore :
    cappedSlug "aaaaaaaaaaaaaaaaaaaaaaaaaaaaa b".data
      = "aaaaaaaaaaaaaaaaaaaaaaaaaaaaa_".data
    ∧ matchesSlugRegex (cappedSlug "aaaaaaaaaaaaaaaaaaaaaaaaaaaaa b".data) = false
    ∧ matchesSlugRegex (slugify "aaaaaaaaaaaaaaaaaaaaaaaaaaaaa b".data) = true := by
  refine ⟨by decide, by decide, by decide⟩

end Outer
